import Mathlib

/-!
Verification of the standings/leaderboard engine of this repository
(`src/models/Leaderboard.ts`).  The instance and static methods of the
`Leaderboard` model that operate on the `standings` JSON array are embedded
as pure Lean functions over a `List` of entries: the JavaScript mutation of
`this.standings` becomes explicit value passing, JavaScript `number` scores
and counters become `Int`, and the Sequelize `isStandingsValid` validator
(which throws) becomes an `Except String Unit` result.
-/

namespace Leaderboard

/-- Embedding of the `LeaderboardEntry` interface of `Leaderboard.ts`:
one team's aggregated record inside a standings table.  All numeric fields
are JavaScript `number`s holding integers, embedded as `Int`. -/
structure LeaderboardEntry where
  teamName : String
  played : Int
  won : Int
  drawn : Int
  lost : Int
  goalsFor : Int
  goalsAgainst : Int
  goalDifference : Int
  points : Int
deriving DecidableEq, Repr

/-- Model of JavaScript `String.prototype.toLowerCase` on the code points of
the string, as used by the case-insensitive name comparisons in
`Leaderboard.ts`.  For the ASCII team names handled by this module,
`toLowerCase` lowercases each code unit independently, which is
`Char.toLower` mapped over the string's characters. -/
def toLowerCase (s : String) : List Char :=
  s.data.map Char.toLower

/-- Embedding of the comparison `x.toLowerCase() === y.toLowerCase()` used by
`getTeamStanding`, `addOrUpdateTeam` and `removeTeam` to match team names
case-insensitively. -/
def nameMatches (s t : String) : Bool :=
  decide (toLowerCase s = toLowerCase t)

/-- Three-way code-point comparison of two character sequences
(lexicographic, by code point).  This is the primary, case-insensitive level
of the `localeCompare` model below, applied to lowercased strings. -/
def codeCmp : List Char → List Char → Int
  | [], [] => 0
  | [], _ :: _ => -1
  | _ :: _, [] => 1
  | c1 :: t1, c2 :: t2 =>
    if c1 < c2 then -1
    else if c2 < c1 then 1
    else codeCmp t1 t2

/-- Tertiary (case) level of the `localeCompare` model: at the first position
where the two strings differ, the character with the greater code point —
for an ASCII case pair, the lowercase letter — sorts first, matching the
ICU default collation where lowercase precedes uppercase. -/
def caseCmp : List Char → List Char → Int
  | [], [] => 0
  | [], _ :: _ => -1
  | _ :: _, [] => 1
  | c1 :: t1, c2 :: t2 =>
    if c1 = c2 then caseCmp t1 t2
    else if c2 < c1 then -1
    else 1

/-- Model of JavaScript `a.localeCompare(b)` under the default (ICU root/en)
collation, for ASCII strings: the strings are compared case-insensitively
first (lowercased code points, lexicographically), and only strings equal at
that level are separated by the case (tertiary) level. -/
def localeCompare (s1 s2 : String) : Int :=
  if codeCmp (toLowerCase s1) (toLowerCase s2) = 0 then caseCmp s1.data s2.data
  else codeCmp (toLowerCase s1) (toLowerCase s2)

/-- Embedding of the comparator passed to `this.standings.sort` in
`Leaderboard.sortStandings`: points descending, then goal difference
descending, then goals for descending, then `a.teamName.localeCompare(b.teamName)`
ascending.  As in the source, a negative result means `a` sorts before `b`. -/
def entryCmp (a b : LeaderboardEntry) : Int :=
  if b.points ≠ a.points then b.points - a.points
  else if b.goalDifference ≠ a.goalDifference then b.goalDifference - a.goalDifference
  else if b.goalsFor ≠ a.goalsFor then b.goalsFor - a.goalsFor
  else localeCompare a.teamName b.teamName

/-- Nonstrict order induced by the `sortStandings` comparator: `a` may be
placed before `b` exactly when the comparator does not require the swap. -/
def entryLe (a b : LeaderboardEntry) : Prop :=
  entryCmp a b ≤ 0

instance : DecidableRel entryLe := fun _ _ => Int.decLe _ _

/-- Embedding of `Leaderboard.sortStandings`.  `Array.prototype.sort` is
required by ECMAScript to sort stably with respect to the comparator; for
the consistent comparator `entryCmp` (proved transitive and total below) the
stable sorted rearrangement is unique, and is modelled by insertion sort. -/
def sortStandings (standings : List LeaderboardEntry) : List LeaderboardEntry :=
  List.insertionSort entryLe standings

/-- Embedding of `Leaderboard.getTeamStanding`: first entry whose team name
matches case-insensitively, or `none` (`null` in the source). -/
def getTeamStanding (standings : List LeaderboardEntry) (teamName : String) :
    Option LeaderboardEntry :=
  standings.find? fun entry => nameMatches entry.teamName teamName

/-- Embedding of `Leaderboard.getTopTeams`, i.e. `this.standings.slice(0, count)`
with ECMAScript `Array.prototype.slice` semantics: a negative `count` is an
offset from the end of the array, clamped at 0; a nonnegative `count` is
clamped at the length. -/
def getTopTeams (standings : List LeaderboardEntry) (count : Int) : List LeaderboardEntry :=
  let len : Int := standings.length
  let finalIdx : Int := if count < 0 then max (len + count) 0 else min count len
  standings.take finalIdx.toNat

/-- Embedding of `Leaderboard.addOrUpdateTeam`: replace the first entry whose
team name matches `entry.teamName` case-insensitively, or push `entry` at the
end if there is none, then re-sort.  `findIndex` returning `-1` (no match) is
modelled by `List.findIdx` returning the length of the list, so the source's
`existingIndex >= 0` test becomes `existingIndex < standings.length`. -/
def addOrUpdateTeam (standings : List LeaderboardEntry) (entry : LeaderboardEntry) :
    List LeaderboardEntry :=
  let existingIndex := standings.findIdx fun standing => nameMatches standing.teamName entry.teamName
  let updated :=
    if existingIndex < standings.length then standings.set existingIndex entry
    else standings ++ [entry]
  sortStandings updated

/-- Embedding of `Leaderboard.removeTeam`: splice out the first entry whose
team name matches case-insensitively and report whether one was found.  The
returned pair is (return value of the method, standings after the call). -/
def removeTeam (standings : List LeaderboardEntry) (teamName : String) :
    Bool × List LeaderboardEntry :=
  let index := standings.findIdx fun standing => nameMatches standing.teamName teamName
  if index < standings.length then (true, standings.eraseIdx index)
  else (false, standings)

/-- Embedding of the static `Leaderboard.createEntryFromMatch`: starting from
the existing entry (or a fresh zeroed entry), increment `played`, add the
team's own and the opponent's score to the goal counters, recompute
`goalDifference`, and credit the win/draw/loss counters and points. -/
def createEntryFromMatch (teamName : String) (existingEntry : Option LeaderboardEntry)
    (isHome : Bool) (homeScore awayScore : Int) : LeaderboardEntry :=
  let baseEntry := existingEntry.getD
    { teamName := teamName, played := 0, won := 0, drawn := 0, lost := 0,
      goalsFor := 0, goalsAgainst := 0, goalDifference := 0, points := 0 }
  let teamScore := if isHome then homeScore else awayScore
  let opponentScore := if isHome then awayScore else homeScore
  let updated := { baseEntry with
    played := baseEntry.played + 1,
    goalsFor := baseEntry.goalsFor + teamScore,
    goalsAgainst := baseEntry.goalsAgainst + opponentScore }
  let updated := { updated with goalDifference := updated.goalsFor - updated.goalsAgainst }
  if teamScore > opponentScore then
    { updated with won := updated.won + 1, points := updated.points + 3 }
  else if teamScore = opponentScore then
    { updated with drawn := updated.drawn + 1, points := updated.points + 1 }
  else
    { updated with lost := updated.lost + 1 }

/-- The match-application pipeline described by the spec for a completed
match: for each of the two teams in turn, build the updated entry with
`createEntryFromMatch` from the team's current standing and upsert it with
`addOrUpdateTeam` (home team first, then away team). -/
def applyMatchResult (standings : List LeaderboardEntry) (homeTeam awayTeam : String)
    (homeScore awayScore : Int) : List LeaderboardEntry :=
  let homeEntry := createEntryFromMatch homeTeam (getTeamStanding standings homeTeam)
    true homeScore awayScore
  let afterHome := addOrUpdateTeam standings homeEntry
  let awayEntry := createEntryFromMatch awayTeam (getTeamStanding afterHome awayTeam)
    false homeScore awayScore
  addOrUpdateTeam afterHome awayEntry

/-- Value given to the Sequelize `standings` column validator: either a JSON
array of entries or some non-array JSON value. -/
inductive StandingsValue where
  | arr (entries : List LeaderboardEntry)
  | nonArray
deriving DecidableEq

/-- Embedding of the per-entry checks of the `isStandingsValid` validator in
`Leaderboard.ts`.  The `typeof` checks of the source cannot fail in this
typed embedding; the `!entry.teamName` falsiness check becomes an emptiness
check on the name. -/
def validateEntry (index : Nat) (entry : LeaderboardEntry) : Except String Unit :=
  if entry.teamName = "" then
    .error ("Entry " ++ toString index ++ ": teamName is required and must be a string")
  else if entry.played < 0 then
    .error ("Entry " ++ toString index ++ ": played must be a non-negative number")
  else if entry.won < 0 then
    .error ("Entry " ++ toString index ++ ": won must be a non-negative number")
  else if entry.drawn < 0 then
    .error ("Entry " ++ toString index ++ ": drawn must be a non-negative number")
  else if entry.lost < 0 then
    .error ("Entry " ++ toString index ++ ": lost must be a non-negative number")
  else if entry.goalsFor < 0 then
    .error ("Entry " ++ toString index ++ ": goalsFor must be a non-negative number")
  else if entry.goalsAgainst < 0 then
    .error ("Entry " ++ toString index ++ ": goalsAgainst must be a non-negative number")
  else if entry.points < 0 then
    .error ("Entry " ++ toString index ++ ": points must be a non-negative number")
  else .ok ()

/-- The `value.forEach((entry, index) => ...)` loop of `isStandingsValid`:
entries are checked in order and the first failing entry's error is thrown. -/
def validateEntries : Nat → List LeaderboardEntry → Except String Unit
  | _, [] => .ok ()
  | index, entry :: rest =>
    match validateEntry index entry with
    | .ok _ => validateEntries (index + 1) rest
    | .error msg => .error msg

/-- Embedding of the Sequelize validator `isStandingsValid` on the
`standings` column: rejects non-array values, then checks every entry. -/
def isStandingsValid : StandingsValue → Except String Unit
  | .nonArray => .error "Standings must be an array"
  | .arr entries => validateEntries 0 entries

/-- Concrete entry used by the worked examples: team Alpha on 10 points with
goal difference +2. -/
def alphaEntry : LeaderboardEntry :=
  { teamName := "Alpha", played := 4, won := 3, drawn := 1, lost := 0,
    goalsFor := 8, goalsAgainst := 6, goalDifference := 2, points := 10 }

/-- Concrete entry used by the worked examples: team Zeta with exactly the
same statistics as `alphaEntry`, differing only in name. -/
def zetaEntry : LeaderboardEntry :=
  { teamName := "Zeta", played := 4, won := 3, drawn := 1, lost := 0,
    goalsFor := 8, goalsAgainst := 6, goalDifference := 2, points := 10 }

/-- The case-insensitive primary level of the name order: lowercased code
points compared lexicographically.  This is the "teamName ascending,
case-insensitive lexicographic" tie-break in the spec's own words. -/
def ciNameLe (s t : String) : Prop :=
  codeCmp (toLowerCase s) (toLowerCase t) ≤ 0

/-- The ranking order stated by the spec: points descending, then goal
difference descending, then goals for descending, then team name ascending
under the case-insensitive comparison. -/
def rankLe (a b : LeaderboardEntry) : Prop :=
  b.points < a.points ∨ (b.points = a.points ∧
    (b.goalDifference < a.goalDifference ∨ (b.goalDifference = a.goalDifference ∧
      (b.goalsFor < a.goalsFor ∨ (b.goalsFor = a.goalsFor ∧
        ciNameLe a.teamName b.teamName)))))

/-- Exact propositional characterisation of `entryCmp a b ≤ 0`: the
lexicographic order points/goal difference/goals for descending with the full
`localeCompare` name order (case tie-break included) as final component. -/
def entryLex (a b : LeaderboardEntry) : Prop :=
  b.points < a.points ∨ (b.points = a.points ∧
    (b.goalDifference < a.goalDifference ∨ (b.goalDifference = a.goalDifference ∧
      (b.goalsFor < a.goalsFor ∨ (b.goalsFor = a.goalsFor ∧
        localeCompare a.teamName b.teamName ≤ 0)))))

/-- Recursive description of the list update performed by `addOrUpdateTeam`
before re-sorting: replace the first case-insensitive name match, or append
the entry at the end.  Proved equal to the `findIdx`/`set`/push form used by
the embedding in `upsert_eq_recUpsert`. -/
def recUpsert (entry : LeaderboardEntry) : List LeaderboardEntry → List LeaderboardEntry
  | [] => [entry]
  | standing :: rest =>
    if nameMatches standing.teamName entry.teamName then entry :: rest
    else standing :: recUpsert entry rest

/-- The data-model invariant of a standings table: team names are pairwise
distinct under the case-insensitive comparison the engine uses for lookups. -/
def ciDistinct (l : List LeaderboardEntry) : Prop :=
  l.Pairwise fun a b => nameMatches a.teamName b.teamName = false

/-- The entry produced for the winner A of the worked 3–1 example match. -/
def matchEntryA : LeaderboardEntry :=
  { teamName := "A", played := 1, won := 1, drawn := 0, lost := 0,
    goalsFor := 3, goalsAgainst := 1, goalDifference := 2, points := 3 }

/-- The entry produced for the loser B of the worked 3–1 example match. -/
def matchEntryB : LeaderboardEntry :=
  { teamName := "B", played := 1, won := 0, drawn := 0, lost := 1,
    goalsFor := 1, goalsAgainst := 3, goalDifference := -2, points := 0 }

/-- The per-entry conditions enforced by the `isStandingsValid` validator: a
non-empty team name and non-negative counters. -/
def entryFieldsValid (e : LeaderboardEntry) : Prop :=
  e.teamName ≠ "" ∧ 0 ≤ e.played ∧ 0 ≤ e.won ∧ 0 ≤ e.drawn ∧ 0 ≤ e.lost ∧
    0 ≤ e.goalsFor ∧ 0 ≤ e.goalsAgainst ∧ 0 ≤ e.points

instance : DecidablePred entryFieldsValid := fun _ =>
  inferInstanceAs (Decidable (_ ∧ _))

instance (l : List LeaderboardEntry) : Decidable (ciDistinct l) :=
  inferInstanceAs (Decidable (List.Pairwise _ l))

theorem codeCmp_eq_zero : ∀ l1 l2 : List Char, codeCmp l1 l2 = 0 ↔ l1 = l2
  | [], [] => by simp [codeCmp]
  | [], _ :: _ => by simp [codeCmp]
  | _ :: _, [] => by simp [codeCmp]
  | c1 :: t1, c2 :: t2 => by
    simp only [codeCmp]
    split_ifs with h1 h2
    · simp [h1.ne]
    · simp [h2.ne']
    · have hc : c1 = c2 := le_antisymm (not_lt.mp h2) (not_lt.mp h1)
      simp [hc, codeCmp_eq_zero t1 t2]

theorem codeCmp_neg : ∀ l1 l2 : List Char, codeCmp l2 l1 = -codeCmp l1 l2
  | [], [] => by simp [codeCmp]
  | [], _ :: _ => by simp [codeCmp]
  | _ :: _, [] => by simp [codeCmp]
  | c1 :: t1, c2 :: t2 => by
    simp only [codeCmp]
    rcases lt_trichotomy c1 c2 with hc | hc | hc
    · simp [hc, lt_asymm hc]
    · simp [hc, lt_irrefl, codeCmp_neg t1 t2]
    · simp [hc, lt_asymm hc]

theorem codeCmp_nil_le (l : List Char) : codeCmp [] l ≤ 0 := by
  cases l <;> simp [codeCmp]

theorem codeCmp_le_trans : ∀ l1 l2 l3 : List Char,
    codeCmp l1 l2 ≤ 0 → codeCmp l2 l3 ≤ 0 → codeCmp l1 l3 ≤ 0
  | [], _, l3, _, _ => codeCmp_nil_le l3
  | _ :: _, [], _, h12, _ => by simp [codeCmp] at h12
  | _ :: _, _ :: _, [], _, h23 => by simp [codeCmp] at h23
  | c1 :: t1, c2 :: t2, c3 :: t3, h12, h23 => by
    simp only [codeCmp] at h12 h23 ⊢
    rcases lt_trichotomy c1 c2 with hc12 | hc12 | hc12
    · rcases lt_trichotomy c2 c3 with hc23 | hc23 | hc23
      · simp [lt_trans hc12 hc23]
      · subst hc23; simp [hc12]
      · simp [lt_asymm hc23, hc23] at h23
    · subst hc12
      simp only [lt_irrefl, if_false] at h12
      rcases lt_trichotomy c1 c3 with hc13 | hc13 | hc13
      · simp [hc13]
      · subst hc13
        simp only [lt_irrefl, if_false] at h23 ⊢
        exact codeCmp_le_trans t1 t2 t3 h12 h23
      · simp [lt_asymm hc13, hc13] at h23
    · simp [lt_asymm hc12, hc12] at h12

theorem caseCmp_eq_zero : ∀ l1 l2 : List Char, caseCmp l1 l2 = 0 ↔ l1 = l2
  | [], [] => by simp [caseCmp]
  | [], _ :: _ => by simp [caseCmp]
  | _ :: _, [] => by simp [caseCmp]
  | c1 :: t1, c2 :: t2 => by
    simp only [caseCmp]
    split_ifs with h1 h2
    · simp [h1, caseCmp_eq_zero t1 t2]
    · simp [h1]
    · simp [h1]

theorem caseCmp_neg : ∀ l1 l2 : List Char, caseCmp l2 l1 = -caseCmp l1 l2
  | [], [] => by simp [caseCmp]
  | [], _ :: _ => by simp [caseCmp]
  | _ :: _, [] => by simp [caseCmp]
  | c1 :: t1, c2 :: t2 => by
    simp only [caseCmp]
    by_cases h1 : c1 = c2
    · simp [h1, caseCmp_neg t1 t2]
    · have h2 : ¬ c2 = c1 := fun h => h1 h.symm
      rcases lt_trichotomy c1 c2 with hc | hc | hc
      · simp [h1, h2, hc, lt_asymm hc]
      · exact absurd hc h1
      · simp [h1, h2, hc, lt_asymm hc]

theorem caseCmp_le_trans : ∀ l1 l2 l3 : List Char,
    caseCmp l1 l2 ≤ 0 → caseCmp l2 l3 ≤ 0 → caseCmp l1 l3 ≤ 0
  | [], _, l3, _, _ => by cases l3 <;> simp [caseCmp]
  | _ :: _, [], _, h12, _ => by simp [caseCmp] at h12
  | _ :: _, _ :: _, [], _, h23 => by simp [caseCmp] at h23
  | c1 :: t1, c2 :: t2, c3 :: t3, h12, h23 => by
    simp only [caseCmp] at h12 h23 ⊢
    by_cases h1 : c1 = c2
    · subst h1
      simp only [if_true] at h12
      by_cases h2 : c1 = c3
      · subst h2
        simp only [if_true] at h23 ⊢
        exact caseCmp_le_trans t1 t2 t3 (by simpa using h12) (by simpa using h23)
      · simp only [h2, if_false] at h23 ⊢
        exact h23
    · simp only [h1, if_false] at h12
      have hlt21 : c2 < c1 := by
        by_cases h : c2 < c1
        · exact h
        · simp [h] at h12
      by_cases h2 : c2 = c3
      · subst h2
        have h13 : ¬ c1 = c2 := h1
        simp [h13, hlt21]
      · simp only [h2, if_false] at h23
        have hlt32 : c3 < c2 := by
          by_cases h : c3 < c2
          · exact h
          · simp [h] at h23
        have hlt31 : c3 < c1 := lt_trans hlt32 hlt21
        simp [hlt31.ne', hlt31]

theorem localeCompare_eq_zero {s1 s2 : String} (h : localeCompare s1 s2 = 0) : s1 = s2 := by
  unfold localeCompare at h
  split_ifs at h with hc
  · exact String.ext ((caseCmp_eq_zero _ _).mp h)
  · exact absurd h hc

theorem localeCompare_neg (s1 s2 : String) : localeCompare s2 s1 = -localeCompare s1 s2 := by
  unfold localeCompare
  rw [codeCmp_neg (toLowerCase s1) (toLowerCase s2), caseCmp_neg s1.data s2.data]
  by_cases hc : codeCmp (toLowerCase s1) (toLowerCase s2) = 0
  · simp [hc]
  · simp [hc, neg_eq_zero]

theorem localeCompare_le_trans {s1 s2 s3 : String}
    (h12 : localeCompare s1 s2 ≤ 0) (h23 : localeCompare s2 s3 ≤ 0) :
    localeCompare s1 s3 ≤ 0 := by
  unfold localeCompare at h12 h23 ⊢
  by_cases hc12 : codeCmp (toLowerCase s1) (toLowerCase s2) = 0
  · have he12 : toLowerCase s1 = toLowerCase s2 := (codeCmp_eq_zero _ _).mp hc12
    rw [if_pos hc12] at h12
    by_cases hc23 : codeCmp (toLowerCase s2) (toLowerCase s3) = 0
    · have he23 : toLowerCase s2 = toLowerCase s3 := (codeCmp_eq_zero _ _).mp hc23
      have hc13 : codeCmp (toLowerCase s1) (toLowerCase s3) = 0 :=
        (codeCmp_eq_zero _ _).mpr (he12.trans he23)
      rw [if_pos hc23] at h23
      rw [if_pos hc13]
      exact caseCmp_le_trans _ _ _ h12 h23
    · have hc13 : codeCmp (toLowerCase s1) (toLowerCase s3) =
          codeCmp (toLowerCase s2) (toLowerCase s3) := by rw [he12]
      rw [if_neg hc23] at h23
      rw [hc13, if_neg hc23]
      exact h23
  · rw [if_neg hc12] at h12
    by_cases hc23 : codeCmp (toLowerCase s2) (toLowerCase s3) = 0
    · have he23 : toLowerCase s2 = toLowerCase s3 := (codeCmp_eq_zero _ _).mp hc23
      have hc13 : codeCmp (toLowerCase s1) (toLowerCase s3) =
          codeCmp (toLowerCase s1) (toLowerCase s2) := by rw [he23]
      rw [hc13, if_neg hc12]
      exact h12
    · rw [if_neg hc23] at h23
      have hle : codeCmp (toLowerCase s1) (toLowerCase s3) ≤ 0 :=
        codeCmp_le_trans _ _ _ h12 h23
      by_cases hc13 : codeCmp (toLowerCase s1) (toLowerCase s3) = 0
      · exfalso
        have he13 : toLowerCase s1 = toLowerCase s3 := (codeCmp_eq_zero _ _).mp hc13
        rw [← he13, codeCmp_neg] at h23
        have h12lt : codeCmp (toLowerCase s1) (toLowerCase s2) < 0 :=
          lt_of_le_of_ne h12 hc12
        omega
      · rw [if_neg hc13]
        exact hle

theorem localeCompare_le_ciNameLe {s t : String} (h : localeCompare s t ≤ 0) :
    ciNameLe s t := by
  unfold localeCompare at h
  unfold ciNameLe
  by_cases hc : codeCmp (toLowerCase s) (toLowerCase t) = 0
  · omega
  · rw [if_neg hc] at h
    exact h

theorem entryCmp_le_iff (a b : LeaderboardEntry) : entryCmp a b ≤ 0 ↔ entryLex a b := by
  unfold entryCmp entryLex
  generalize localeCompare a.teamName b.teamName = x
  split_ifs <;> omega

theorem entryCmp_neg (a b : LeaderboardEntry) : entryCmp b a = -entryCmp a b := by
  unfold entryCmp
  split_ifs <;> first
    | omega
    | exact localeCompare_neg a.teamName b.teamName

theorem entryCmp_eq_zero_name {a b : LeaderboardEntry} (h : entryCmp a b = 0) :
    a.teamName = b.teamName := by
  unfold entryCmp at h
  split_ifs at h with h1 h2 h3
  · omega
  · omega
  · omega
  · exact localeCompare_eq_zero h

theorem entryLe_trans {a b c : LeaderboardEntry} (hab : entryLe a b) (hbc : entryLe b c) :
    entryLe a c := by
  have h1 : entryLex a b := (entryCmp_le_iff a b).mp hab
  have h2 : entryLex b c := (entryCmp_le_iff b c).mp hbc
  refine (entryCmp_le_iff a c).mpr ?_
  unfold entryLex at h1 h2 ⊢
  rcases h1 with hp1 | ⟨hp1, h1⟩
  · rcases h2 with hp2 | ⟨hp2, h2⟩
    · left; omega
    · left; omega
  · rcases h2 with hp2 | ⟨hp2, h2⟩
    · left; omega
    · refine Or.inr ⟨hp2.trans hp1, ?_⟩
      rcases h1 with hg1 | ⟨hg1, h1⟩
      · rcases h2 with hg2 | ⟨hg2, h2⟩
        · left; omega
        · left; omega
      · rcases h2 with hg2 | ⟨hg2, h2⟩
        · left; omega
        · refine Or.inr ⟨hg2.trans hg1, ?_⟩
          rcases h1 with hf1 | ⟨hf1, h1⟩
          · rcases h2 with hf2 | ⟨hf2, h2⟩
            · left; omega
            · left; omega
          · rcases h2 with hf2 | ⟨hf2, h2⟩
            · left; omega
            · exact Or.inr ⟨hf2.trans hf1, localeCompare_le_trans h1 h2⟩

theorem entryLe_total (a b : LeaderboardEntry) : entryLe a b ∨ entryLe b a := by
  unfold entryLe
  have h := entryCmp_neg a b
  omega

instance : IsTrans LeaderboardEntry entryLe := ⟨fun _ _ _ => entryLe_trans⟩

instance : IsTotal LeaderboardEntry entryLe := ⟨entryLe_total⟩

theorem sortStandings_sorted (l : List LeaderboardEntry) :
    List.Sorted entryLe (sortStandings l) :=
  List.sorted_insertionSort entryLe l

theorem sortStandings_perm (l : List LeaderboardEntry) : (sortStandings l).Perm l :=
  List.perm_insertionSort entryLe l

theorem mem_sortStandings {x : LeaderboardEntry} {l : List LeaderboardEntry} :
    x ∈ sortStandings l ↔ x ∈ l :=
  (sortStandings_perm l).mem_iff

theorem sortStandings_idem (l : List LeaderboardEntry) :
    sortStandings (sortStandings l) = sortStandings l :=
  List.Sorted.insertionSort_eq (sortStandings_sorted l)

theorem nameMatches_iff {s t : String} :
    nameMatches s t = true ↔ toLowerCase s = toLowerCase t := by
  simp [nameMatches]

theorem nameMatches_refl (s : String) : nameMatches s s = true := by
  simp [nameMatches]

theorem nameMatches_symm (s t : String) : nameMatches s t = nameMatches t s :=
  decide_eq_decide.mpr eq_comm

theorem nameMatches_trans {s t u : String} (h1 : nameMatches s t = true)
    (h2 : nameMatches t u = true) : nameMatches s u = true :=
  nameMatches_iff.mpr ((nameMatches_iff.mp h1).trans (nameMatches_iff.mp h2))

theorem notMatch_symmetric :
    Symmetric fun a b : LeaderboardEntry => nameMatches a.teamName b.teamName = false :=
  fun a b h => by
    show nameMatches b.teamName a.teamName = false
    rw [nameMatches_symm]
    exact h

theorem addOrUpdateTeam_eq (standings : List LeaderboardEntry) (entry : LeaderboardEntry) :
    addOrUpdateTeam standings entry = sortStandings (recUpsert entry standings) := by
  simp only [addOrUpdateTeam]
  congr 1
  induction standings with
  | nil => simp [recUpsert]
  | cons a t ih =>
    rw [List.findIdx_cons]
    cases h : nameMatches a.teamName entry.teamName with
    | true => simp [h, recUpsert]
    | false =>
      simp only [h, cond_false, recUpsert, Bool.false_eq_true, if_false]
      rw [← ih]
      by_cases ht : (t.findIdx fun s => nameMatches s.teamName entry.teamName) < t.length
      · rw [if_pos ht,
          if_pos (by simp only [List.length_cons]; omega),
          List.set_cons_succ]
      · rw [if_neg ht,
          if_neg (by simp only [List.length_cons]; omega),
          List.cons_append]

theorem mem_recUpsert_self (entry : LeaderboardEntry) :
    ∀ l : List LeaderboardEntry, entry ∈ recUpsert entry l
  | [] => by simp [recUpsert]
  | a :: t => by
    unfold recUpsert
    by_cases h : nameMatches a.teamName entry.teamName = true
    · simp [h]
    · simp [h, mem_recUpsert_self entry t]

theorem mem_recUpsert {x entry : LeaderboardEntry} :
    ∀ {l : List LeaderboardEntry}, x ∈ recUpsert entry l → x = entry ∨ x ∈ l
  | [], h => by simpa [recUpsert] using h
  | a :: t, h => by
    unfold recUpsert at h
    by_cases hm : nameMatches a.teamName entry.teamName = true
    · rw [if_pos hm] at h
      rcases List.mem_cons.mp h with rfl | hx
      · exact Or.inl rfl
      · exact Or.inr (List.mem_cons_of_mem a hx)
    · rw [if_neg hm] at h
      rcases List.mem_cons.mp h with rfl | hx
      · exact Or.inr (List.mem_cons_self x t)
      · rcases mem_recUpsert hx with hx | hx
        · exact Or.inl hx
        · exact Or.inr (List.mem_cons_of_mem a hx)

theorem mem_recUpsert_of_mem {x entry : LeaderboardEntry}
    (hne : nameMatches x.teamName entry.teamName = false) :
    ∀ {l : List LeaderboardEntry}, x ∈ l → x ∈ recUpsert entry l
  | [], h => by simp at h
  | a :: t, h => by
    unfold recUpsert
    by_cases hm : nameMatches a.teamName entry.teamName = true
    · rw [if_pos hm]
      rcases List.mem_cons.mp h with rfl | hx
      · rw [hm] at hne; exact absurd hne (by simp)
      · exact List.mem_cons_of_mem entry hx
    · rw [if_neg hm]
      rcases List.mem_cons.mp h with rfl | hx
      · exact List.mem_cons_self x _
      · exact List.mem_cons_of_mem a (mem_recUpsert_of_mem hne hx)

theorem length_recUpsert_found {entry : LeaderboardEntry} :
    ∀ {l : List LeaderboardEntry}, (∃ y ∈ l, nameMatches y.teamName entry.teamName = true) →
      (recUpsert entry l).length = l.length
  | [], h => by simp at h
  | a :: t, h => by
    unfold recUpsert
    by_cases hm : nameMatches a.teamName entry.teamName = true
    · rw [if_pos hm]; simp
    · rw [if_neg hm]
      rcases h with ⟨y, hy, hmy⟩
      rcases List.mem_cons.mp hy with rfl | hyt
      · exact absurd hmy hm
      · simp [length_recUpsert_found ⟨y, hyt, hmy⟩]

theorem recUpsert_not_found {entry : LeaderboardEntry} :
    ∀ {l : List LeaderboardEntry}, (∀ y ∈ l, nameMatches y.teamName entry.teamName = false) →
      recUpsert entry l = l ++ [entry]
  | [], _ => by simp [recUpsert]
  | a :: t, h => by
    unfold recUpsert
    rw [if_neg (by simp [h a (List.mem_cons_self a t)]),
      recUpsert_not_found fun y hy => h y (List.mem_cons_of_mem a hy), List.cons_append]

theorem ciDistinct_recUpsert {entry : LeaderboardEntry} :
    ∀ {l : List LeaderboardEntry}, ciDistinct l → ciDistinct (recUpsert entry l)
  | [], _ => by simp [recUpsert, ciDistinct]
  | a :: t, h => by
    rw [ciDistinct, List.pairwise_cons] at h
    unfold recUpsert
    by_cases hm : nameMatches a.teamName entry.teamName = true
    · rw [if_pos hm, ciDistinct, List.pairwise_cons]
      refine ⟨fun y hy => ?_, h.2⟩
      cases hys : nameMatches entry.teamName y.teamName with
      | false => rfl
      | true =>
        have : nameMatches a.teamName y.teamName = true := nameMatches_trans hm hys
        rw [h.1 y hy] at this
        exact absurd this (by simp)
    · rw [if_neg hm, ciDistinct, List.pairwise_cons]
      refine ⟨fun y hy => ?_, ciDistinct_recUpsert h.2⟩
      rcases mem_recUpsert hy with rfl | hyt
      · simpa using hm
      · exact h.1 y hyt

theorem filter_recUpsert {entry : LeaderboardEntry} :
    ∀ {l : List LeaderboardEntry}, ciDistinct l →
      (recUpsert entry l).filter (fun x => nameMatches x.teamName entry.teamName) = [entry]
  | [], _ => by simp [recUpsert, nameMatches_refl]
  | a :: t, h => by
    rw [ciDistinct, List.pairwise_cons] at h
    unfold recUpsert
    by_cases hm : nameMatches a.teamName entry.teamName = true
    · rw [if_pos hm, List.filter_cons, if_pos (by simpa using nameMatches_refl entry.teamName)]
      have ht : t.filter (fun x => nameMatches x.teamName entry.teamName) = [] := by
        rw [List.filter_eq_nil_iff]
        intro y hy
        cases hys : nameMatches y.teamName entry.teamName with
        | false => simp
        | true =>
          have : nameMatches a.teamName y.teamName = true :=
            nameMatches_trans hm (by rw [nameMatches_symm]; exact hys)
          rw [h.1 y hy] at this
          exact absurd this (by simp)
      rw [ht]
    · rw [if_neg hm, List.filter_cons, if_neg (by simpa using hm)]
      exact filter_recUpsert h.2

theorem mem_addOrUpdateTeam_self (l : List LeaderboardEntry) (e : LeaderboardEntry) :
    e ∈ addOrUpdateTeam l e := by
  rw [addOrUpdateTeam_eq]
  exact mem_sortStandings.mpr (mem_recUpsert_self e l)

theorem mem_addOrUpdateTeam {x e : LeaderboardEntry} {l : List LeaderboardEntry}
    (h : x ∈ addOrUpdateTeam l e) : x = e ∨ x ∈ l := by
  rw [addOrUpdateTeam_eq] at h
  exact mem_recUpsert (mem_sortStandings.mp h)

theorem mem_addOrUpdateTeam_of_mem {x e : LeaderboardEntry} {l : List LeaderboardEntry}
    (hx : x ∈ l) (hne : nameMatches x.teamName e.teamName = false) :
    x ∈ addOrUpdateTeam l e := by
  rw [addOrUpdateTeam_eq]
  exact mem_sortStandings.mpr (mem_recUpsert_of_mem hne hx)

theorem ciDistinct_addOrUpdateTeam {l : List LeaderboardEntry} {e : LeaderboardEntry}
    (hd : ciDistinct l) : ciDistinct (addOrUpdateTeam l e) := by
  rw [addOrUpdateTeam_eq]
  exact ((sortStandings_perm (recUpsert e l)).pairwise_iff
    fun hxy => notMatch_symmetric hxy).mpr (ciDistinct_recUpsert hd)

theorem filter_addOrUpdateTeam {l : List LeaderboardEntry} {e : LeaderboardEntry}
    (hd : ciDistinct l) :
    (addOrUpdateTeam l e).filter (fun x => nameMatches x.teamName e.teamName) = [e] := by
  rw [addOrUpdateTeam_eq]
  have hperm := (sortStandings_perm (recUpsert e l)).filter
    (fun x => nameMatches x.teamName e.teamName)
  rw [filter_recUpsert hd] at hperm
  exact List.perm_singleton.mp hperm

theorem length_addOrUpdateTeam (l : List LeaderboardEntry) (e : LeaderboardEntry) :
    (addOrUpdateTeam l e).length =
      if ∃ y ∈ l, nameMatches y.teamName e.teamName = true then l.length
      else l.length + 1 := by
  rw [addOrUpdateTeam_eq, (sortStandings_perm (recUpsert e l)).length_eq]
  split_ifs with h
  · exact length_recUpsert_found h
  · rw [recUpsert_not_found (fun y hy => by
      cases hm : nameMatches y.teamName e.teamName with
      | false => rfl
      | true => exact absurd ⟨y, hy, hm⟩ h)]
    simp

theorem getTeamStanding_eq_some_iff {l : List LeaderboardEntry} {name : String}
    {x : LeaderboardEntry} (hd : ciDistinct l) :
    getTeamStanding l name = some x ↔ x ∈ l ∧ nameMatches x.teamName name = true := by
  constructor
  · intro h
    unfold getTeamStanding at h
    exact ⟨List.mem_of_find?_eq_some h, by simpa using List.find?_some h⟩
  · rintro ⟨hx, hmatch⟩
    cases hfind : getTeamStanding l name with
    | none =>
      unfold getTeamStanding at hfind
      rw [List.find?_eq_none] at hfind
      exact absurd hmatch (hfind x hx)
    | some y =>
      have hfind2 := hfind
      unfold getTeamStanding at hfind2
      have hy : nameMatches y.teamName name = true := by
        simpa using List.find?_some hfind2
      have hym : y ∈ l := List.mem_of_find?_eq_some hfind2
      by_cases hxy : x = y
      · rw [hxy]
      · have hfalse : nameMatches x.teamName y.teamName = false :=
          List.Pairwise.forall notMatch_symmetric hd hx hym hxy
        have htrue : nameMatches x.teamName y.teamName = true :=
          nameMatches_trans hmatch (by rw [nameMatches_symm]; exact hy)
        rw [hfalse] at htrue
        exact absurd htrue (by simp)

theorem getTeamStanding_addOrUpdateTeam_self {l : List LeaderboardEntry}
    {e : LeaderboardEntry} {name : String} (hd : ciDistinct l)
    (hm : nameMatches e.teamName name = true) :
    getTeamStanding (addOrUpdateTeam l e) name = some e :=
  (getTeamStanding_eq_some_iff (ciDistinct_addOrUpdateTeam hd)).mpr
    ⟨mem_addOrUpdateTeam_self l e, hm⟩

theorem getTeamStanding_addOrUpdateTeam_other {l : List LeaderboardEntry}
    {e : LeaderboardEntry} {name : String} (hd : ciDistinct l)
    (hne : nameMatches e.teamName name = false) :
    getTeamStanding (addOrUpdateTeam l e) name = getTeamStanding l name := by
  cases hl : getTeamStanding l name with
  | some x =>
    have hx := (getTeamStanding_eq_some_iff hd).mp hl
    have hxe : nameMatches x.teamName e.teamName = false := by
      cases hm : nameMatches x.teamName e.teamName with
      | false => rfl
      | true =>
        have : nameMatches e.teamName name = true :=
          nameMatches_trans (by rw [nameMatches_symm]; exact hm) hx.2
        rw [hne] at this
        exact absurd this (by simp)
    exact (getTeamStanding_eq_some_iff (ciDistinct_addOrUpdateTeam hd)).mpr
      ⟨mem_addOrUpdateTeam_of_mem hx.1 hxe, hx.2⟩
  | none =>
    unfold getTeamStanding at hl ⊢
    rw [List.find?_eq_none] at hl ⊢
    intro y hy
    rcases mem_addOrUpdateTeam hy with rfl | hyl
    · simp [hne]
    · exact hl y hyl

theorem createEntryFromMatch_some_eq (name : String) (e : LeaderboardEntry) (isHome : Bool)
    (homeScore awayScore : Int) :
    createEntryFromMatch name (some e) isHome homeScore awayScore =
      { teamName := e.teamName,
        played := e.played + 1,
        won := e.won +
          (if (if isHome then awayScore else homeScore) < (if isHome then homeScore else awayScore)
           then 1 else 0),
        drawn := e.drawn +
          (if (if isHome then homeScore else awayScore) = (if isHome then awayScore else homeScore)
           then 1 else 0),
        lost := e.lost +
          (if (if isHome then homeScore else awayScore) < (if isHome then awayScore else homeScore)
           then 1 else 0),
        goalsFor := e.goalsFor + (if isHome then homeScore else awayScore),
        goalsAgainst := e.goalsAgainst + (if isHome then awayScore else homeScore),
        goalDifference := e.goalsFor + (if isHome then homeScore else awayScore) -
          (e.goalsAgainst + (if isHome then awayScore else homeScore)),
        points := e.points +
          (if (if isHome then awayScore else homeScore) < (if isHome then homeScore else awayScore)
           then 3
           else if (if isHome then homeScore else awayScore) = (if isHome then awayScore else homeScore)
           then 1 else 0) } := by
  simp only [createEntryFromMatch, Option.getD_some, gt_iff_lt]
  split_ifs with h1 h2 <;> simp_all <;> omega

theorem createEntryFromMatch_none_eq (name : String) (isHome : Bool)
    (homeScore awayScore : Int) :
    createEntryFromMatch name none isHome homeScore awayScore =
      { teamName := name,
        played := 1,
        won := (if (if isHome then awayScore else homeScore) < (if isHome then homeScore else awayScore)
           then 1 else 0),
        drawn := (if (if isHome then homeScore else awayScore) = (if isHome then awayScore else homeScore)
           then 1 else 0),
        lost := (if (if isHome then homeScore else awayScore) < (if isHome then awayScore else homeScore)
           then 1 else 0),
        goalsFor := (if isHome then homeScore else awayScore),
        goalsAgainst := (if isHome then awayScore else homeScore),
        goalDifference := (if isHome then homeScore else awayScore) -
          (if isHome then awayScore else homeScore),
        points := (if (if isHome then awayScore else homeScore) < (if isHome then homeScore else awayScore)
           then 3
           else if (if isHome then homeScore else awayScore) = (if isHome then awayScore else homeScore)
           then 1 else 0) } := by
  simp only [createEntryFromMatch, Option.getD_none, gt_iff_lt]
  split_ifs with h1 h2 <;> simp_all <;> omega

theorem createEntryFromMatch_teamName_some (name : String) (e : LeaderboardEntry)
    (isHome : Bool) (homeScore awayScore : Int) :
    (createEntryFromMatch name (some e) isHome homeScore awayScore).teamName = e.teamName := by
  simp only [createEntryFromMatch]
  split_ifs <;> rfl

theorem createEntryFromMatch_teamName_none (name : String)
    (isHome : Bool) (homeScore awayScore : Int) :
    (createEntryFromMatch name none isHome homeScore awayScore).teamName = name := by
  simp only [createEntryFromMatch]
  split_ifs <;> rfl

theorem mem_of_getTeamStanding {l : List LeaderboardEntry} {name : String}
    {e : LeaderboardEntry} (h : getTeamStanding l name = some e) : e ∈ l := by
  unfold getTeamStanding at h
  exact List.mem_of_find?_eq_some h

theorem match_of_getTeamStanding {l : List LeaderboardEntry} {name : String}
    {e : LeaderboardEntry} (h : getTeamStanding l name = some e) :
    nameMatches e.teamName name = true := by
  unfold getTeamStanding at h
  simpa using List.find?_some h

theorem createEntryFromMatch_matches (l : List LeaderboardEntry) (name : String)
    (isHome : Bool) (homeScore awayScore : Int) :
    nameMatches
      (createEntryFromMatch name (getTeamStanding l name) isHome homeScore awayScore).teamName
      name = true := by
  cases hfind : getTeamStanding l name with
  | none => rw [createEntryFromMatch_teamName_none]; exact nameMatches_refl name
  | some b => rw [createEntryFromMatch_teamName_some]; exact match_of_getTeamStanding hfind

theorem createEntryFromMatch_gd (name : String) (opt : Option LeaderboardEntry)
    (isHome : Bool) (homeScore awayScore : Int) :
    (createEntryFromMatch name opt isHome homeScore awayScore).goalDifference =
      (createEntryFromMatch name opt isHome homeScore awayScore).goalsFor -
        (createEntryFromMatch name opt isHome homeScore awayScore).goalsAgainst := by
  simp only [createEntryFromMatch]
  split_ifs <;> rfl

theorem createEntryFromMatch_wdl (name : String) (opt : Option LeaderboardEntry)
    (isHome : Bool) (homeScore awayScore : Int)
    (h : ∀ e, opt = some e → e.won + e.drawn + e.lost = e.played) :
    (createEntryFromMatch name opt isHome homeScore awayScore).won +
      (createEntryFromMatch name opt isHome homeScore awayScore).drawn +
      (createEntryFromMatch name opt isHome homeScore awayScore).lost =
      (createEntryFromMatch name opt isHome homeScore awayScore).played := by
  cases opt with
  | none => rw [createEntryFromMatch_none_eq]; dsimp only; split_ifs <;> omega
  | some e =>
    have he := h e rfl
    rw [createEntryFromMatch_some_eq]; dsimp only; split_ifs <;> omega

theorem createEntryFromMatch_points (name : String) (opt : Option LeaderboardEntry)
    (isHome : Bool) (homeScore awayScore : Int)
    (h : ∀ e, opt = some e → e.points = 3 * e.won + e.drawn) :
    (createEntryFromMatch name opt isHome homeScore awayScore).points =
      3 * (createEntryFromMatch name opt isHome homeScore awayScore).won +
        (createEntryFromMatch name opt isHome homeScore awayScore).drawn := by
  cases opt with
  | none => rw [createEntryFromMatch_none_eq]; dsimp only; split_ifs <;> omega
  | some e =>
    have he := h e rfl
    rw [createEntryFromMatch_some_eq]; dsimp only; split_ifs <;> omega

theorem applyMatchResult_preserves {P : LeaderboardEntry → Prop}
    (hP : ∀ name opt isHome hs as, (∀ e, opt = some e → P e) →
      P (createEntryFromMatch name opt isHome hs as))
    {l : List LeaderboardEntry} (hl : ∀ e ∈ l, P e) (home away : String) (hs as : Int) :
    ∀ x ∈ applyMatchResult l home away hs as, P x := by
  have hhome : P (createEntryFromMatch home (getTeamStanding l home) true hs as) :=
    hP _ _ _ _ _ fun e he => hl e (mem_of_getTeamStanding he)
  have hafter : ∀ x ∈ addOrUpdateTeam l
      (createEntryFromMatch home (getTeamStanding l home) true hs as), P x := by
    intro x hx
    rcases mem_addOrUpdateTeam hx with rfl | hx
    · exact hhome
    · exact hl x hx
  intro x hx
  simp only [applyMatchResult] at hx
  rcases mem_addOrUpdateTeam hx with rfl | hx
  · exact hP _ _ _ _ _ fun e he => hafter e (mem_of_getTeamStanding he)
  · exact hafter x hx

theorem validateEntry_ok_iff (i : Nat) (e : LeaderboardEntry) :
    validateEntry i e = .ok () ↔ entryFieldsValid e := by
  unfold validateEntry entryFieldsValid
  split_ifs with h1 h2 h3 h4 h5 h6 h7 h8
  · simp [h1]
  · simp [not_le.mpr h2]
  · simp [not_le.mpr h3]
  · simp [not_le.mpr h4]
  · simp [not_le.mpr h5]
  · simp [not_le.mpr h6]
  · simp [not_le.mpr h7]
  · simp [not_le.mpr h8]
  · simp [h1, not_lt.mp h2, not_lt.mp h3, not_lt.mp h4, not_lt.mp h5, not_lt.mp h6,
      not_lt.mp h7, not_lt.mp h8]

theorem validateEntries_ok_iff : ∀ (i : Nat) (entries : List LeaderboardEntry),
    validateEntries i entries = .ok () ↔ ∀ e ∈ entries, entryFieldsValid e
  | _, [] => by simp [validateEntries]
  | i, e :: rest => by
    unfold validateEntries
    cases hv : validateEntry i e with
    | ok u =>
      cases u
      have he := (validateEntry_ok_iff i e).mp hv
      simp [validateEntries_ok_iff (i + 1) rest, List.forall_mem_cons, he]
    | error msg =>
      have he : ¬ entryFieldsValid e := fun hP => by
        rw [(validateEntry_ok_iff i e).mpr hP] at hv
        exact Except.noConfusion hv
      simp only [List.forall_mem_cons]
      constructor
      · intro h
        exact Except.noConfusion h
      · intro h
        exact absurd h.1 he

/-- C2: `sortStandings` orders the table by points descending, then goal
difference descending, then goals for descending, and finally by team name
ascending under the case-insensitive, locale-aware comparison: the output is
a permutation of the input that is pairwise ordered by that lexicographic
rule; in particular the two-entry table [Zeta, Alpha], whose entries differ
only in name, sorts Alpha before Zeta. -/
theorem sortStandings_ranking :
    (∀ l : List LeaderboardEntry,
      (sortStandings l).Pairwise rankLe ∧ (sortStandings l).Perm l) ∧
    sortStandings [zetaEntry, alphaEntry] = [alphaEntry, zetaEntry] := by
  refine ⟨fun l => ⟨?_, sortStandings_perm l⟩, by decide⟩
  refine List.Pairwise.imp ?_ (sortStandings_sorted l)
  intro a b hab
  have hx := (entryCmp_le_iff a b).mp hab
  unfold entryLex at hx
  unfold rankLe
  rcases hx with h | ⟨h1, hx⟩
  · exact Or.inl h
  · refine Or.inr ⟨h1, ?_⟩
    rcases hx with h | ⟨h2, hx⟩
    · exact Or.inl h
    · refine Or.inr ⟨h2, ?_⟩
      rcases hx with h | ⟨h3, hx⟩
      · exact Or.inl h
      · exact Or.inr ⟨h3, localeCompare_le_ciNameLe hx⟩

/-- C9: on a table whose entries have pairwise distinct team names the
`sortStandings` comparator is a total order — it never compares two distinct
entries of the table as equal — and therefore sorting is idempotent:
re-sorting the sorted table returns it unchanged, and (the sort being a pure
function) repeated invocations on the same input agree. -/
theorem sortStandings_total_order (l : List LeaderboardEntry)
    (h : l.Pairwise fun a b => a.teamName ≠ b.teamName) :
    (∀ a ∈ l, ∀ b ∈ l, entryCmp a b = 0 → a = b) ∧
    sortStandings (sortStandings l) = sortStandings l := by
  refine ⟨fun a ha b hb hcmp => ?_, sortStandings_idem l⟩
  by_cases hab : a = b
  · exact hab
  · have hne : a.teamName ≠ b.teamName :=
      List.Pairwise.forall (fun _ _ hxy => Ne.symm hxy) h ha hb hab
    exact absurd (entryCmp_eq_zero_name hcmp) hne

/-- C9 witness: the total-order theorem applied to the concrete two-entry
table of the worked example. -/
theorem sortStandings_total_order_witness :
    sortStandings (sortStandings [zetaEntry, alphaEntry]) =
      sortStandings [zetaEntry, alphaEntry] :=
  (sortStandings_total_order [zetaEntry, alphaEntry] (by decide)).2

/-- C4 counterexample: `getTopTeams` with the negative count `-1` on a
two-entry table returns the first entry, not the empty sequence, although
`-1 ≤ 0`; the claim that every `n ≤ 0` yields an empty sequence is false. -/
theorem getTopTeams_negative_counterexample :
    (-1 : Int) ≤ 0 ∧
    getTopTeams [alphaEntry, zetaEntry] (-1) = [alphaEntry] ∧
    getTopTeams [alphaEntry, zetaEntry] (-1) ≠ [] := by decide

/-- C4 (amended): `getTopTeams` implements ECMAScript `slice(0, n)`: the
result is empty when `n = 0` or the table is empty; for `0 ≤ n` it is the
first `n` entries (all of them when `n` exceeds the length); for `n < 0` it
is the first `length + n` entries, clamped at zero (so empty only once
`n ≤ -length`).  The result is a prefix copy; the source table itself is
returned unmodified alongside in this functional embedding. -/
theorem getTopTeams_slice_spec (l : List LeaderboardEntry) (n : Int) :
    (n = 0 ∨ l = [] → getTopTeams l n = []) ∧
    (0 ≤ n → getTopTeams l n = l.take n.toNat) ∧
    (n < 0 → getTopTeams l n = l.take (l.length + n).toNat) ∧
    (n + l.length ≤ 0 → getTopTeams l n = []) := by
  simp only [getTopTeams]
  refine ⟨?_, ?_, ?_, ?_⟩
  · rintro (rfl | rfl) <;> simp
  · intro h
    rw [if_neg (not_lt.mpr h), List.take_eq_take]
    omega
  · intro h
    rw [if_pos h, List.take_eq_take]
    omega
  · intro h
    by_cases hn : n < 0
    · rw [if_pos hn]
      have hz : (max (↑l.length + n) 0).toNat = 0 := by omega
      rw [hz, List.take_zero]
    · rw [if_neg hn]
      have hlen : l.length = 0 := by omega
      rw [List.length_eq_zero.mp hlen]
      simp

/-- C4 witness: the amended slice description applied at a positive count
exceeding the table length. -/
theorem getTopTeams_slice_spec_witness :
    getTopTeams [alphaEntry, zetaEntry] 5 = [alphaEntry, zetaEntry].take (Int.toNat 5) :=
  (getTopTeams_slice_spec [alphaEntry, zetaEntry] 5).2.1 (by decide)

/-- C3 counterexample: the match-application operations perform no input
validation.  With the negative score `-1`, `createEntryFromMatch` returns a
normally updated entry — `played` incremented and the negative score summed
into `goalsFor` — instead of failing; and applying a match whose home and
away team are both the (case-insensitively identical) name "A" produces an
updated, non-empty table whose single entry has been double-counted, instead
of failing: in both cases the invalid input is accepted and entries are
updated, so no validation failure is signalled to the caller. -/
theorem engine_accepts_invalid_counterexample :
    (-1 : Int) < 0 ∧
    createEntryFromMatch "A" none true (-1) 0 =
      { teamName := "A", played := 1, won := 0, drawn := 0, lost := 1,
        goalsFor := -1, goalsAgainst := 0, goalDifference := -1, points := 0 } ∧
    (createEntryFromMatch "A" none true (-1) 0).played = 1 ∧
    (createEntryFromMatch "A" none true (-1) 0).goalsFor = -1 ∧
    nameMatches "A" "A" = true ∧
    applyMatchResult [] "A" "A" 2 1 =
      [{ teamName := "A", played := 2, won := 1, drawn := 0, lost := 1,
         goalsFor := 3, goalsAgainst := 3, goalDifference := 0, points := 3 }] ∧
    applyMatchResult [] "A" "A" 2 1 ≠ [] ∧
    getTeamStanding (applyMatchResult [] "A" "A" 2 1) "A" ≠ none := by decide

/-- C3 (amended): validation lives only in the persistence-layer Sequelize
validator `isStandingsValid`: it synchronously signals an error on a
non-array standings value, accepts an entries array exactly when every entry
has a non-empty team name and non-negative counters, and signals an error
exactly when some entry violates those conditions.  The standings-engine
match operations themselves validate nothing: for every input, a negative
score is accepted and summed straight into the updated entry (`played` still
incremented, the negative score added to `goalsFor`), and a match whose home
and away names are identical is accepted and applied twice to the same
entry — the pipeline on the empty table leaves exactly the double-counted
entry rather than signalling any failure. -/
theorem isStandingsValid_spec :
    isStandingsValid .nonArray = .error "Standings must be an array" ∧
    (∀ entries : List LeaderboardEntry,
      isStandingsValid (.arr entries) = .ok () ↔ ∀ e ∈ entries, entryFieldsValid e) ∧
    (∀ entries : List LeaderboardEntry,
      (∃ msg, isStandingsValid (.arr entries) = .error msg) ↔
        ∃ e ∈ entries, ¬ entryFieldsValid e) ∧
    (∀ (name : String) (e : LeaderboardEntry) (isHome : Bool) (hs as : Int),
      hs < 0 ∨ as < 0 →
      (createEntryFromMatch name (some e) isHome hs as).played = e.played + 1 ∧
      (createEntryFromMatch name (some e) isHome hs as).goalsFor =
        e.goalsFor + (if isHome then hs else as)) ∧
    (∀ (name : String) (hs as : Int),
      applyMatchResult [] name name hs as =
        [createEntryFromMatch name (some (createEntryFromMatch name none true hs as))
          false hs as]) := by
  refine ⟨rfl, fun entries => validateEntries_ok_iff 0 entries, ?_, ?_, ?_⟩
  · intro entries
    constructor
    · rintro ⟨msg, hmsg⟩
      by_contra h
      push_neg at h
      have hok : isStandingsValid (.arr entries) = .ok () :=
        (validateEntries_ok_iff 0 entries).mpr h
      rw [hok] at hmsg
      exact Except.noConfusion hmsg
    · rintro ⟨e, he, hne⟩
      cases hval : isStandingsValid (.arr entries) with
      | ok u =>
        cases u
        have hall := (validateEntries_ok_iff 0 entries).mp hval
        exact absurd (hall e he) hne
      | error msg => exact ⟨msg, rfl⟩
  · intro name e isHome hs as _
    rw [createEntryFromMatch_some_eq]
    exact ⟨rfl, rfl⟩
  · intro name hs as
    have h0 : getTeamStanding ([] : List LeaderboardEntry) name = none := rfl
    have hA : addOrUpdateTeam [] (createEntryFromMatch name none true hs as) =
        [createEntryFromMatch name none true hs as] := rfl
    have hname : (createEntryFromMatch name none true hs as).teamName = name :=
      createEntryFromMatch_teamName_none name true hs as
    have hB : getTeamStanding [createEntryFromMatch name none true hs as] name =
        some (createEntryFromMatch name none true hs as) := by
      have hm : nameMatches (createEntryFromMatch name none true hs as).teamName name = true := by
        rw [hname]
        exact nameMatches_refl name
      unfold getTeamStanding
      rw [List.find?_cons, hm]
    have hC : nameMatches (createEntryFromMatch name none true hs as).teamName
        (createEntryFromMatch name (some (createEntryFromMatch name none true hs as))
          false hs as).teamName = true := by
      rw [createEntryFromMatch_teamName_some, createEntryFromMatch_teamName_none]
      exact nameMatches_refl name
    simp only [applyMatchResult, h0, hA, hB]
    rw [addOrUpdateTeam_eq]
    unfold recUpsert
    rw [if_pos hC]
    rfl

/-- C3 witness: the validator characterisation applied to a concrete
one-entry array with non-negative counters, and the universal
negative-score acceptance applied at the concrete score `-2`. -/
theorem isStandingsValid_spec_witness :
    isStandingsValid (.arr [alphaEntry]) = .ok () ∧
    (createEntryFromMatch "C" (some alphaEntry) true (-2) 0).played = alphaEntry.played + 1 :=
  ⟨(isStandingsValid_spec.2.1 [alphaEntry]).mpr (by decide),
   (isStandingsValid_spec.2.2.2.1 "C" alphaEntry true (-2) 0 (Or.inl (by decide))).1⟩

/-- C5: if every entry of the table satisfies
`goalDifference = goalsFor - goalsAgainst`, then after applying a match
result through the `createEntryFromMatch`/`addOrUpdateTeam` pipeline every
entry of the resulting table still satisfies it. -/
theorem applyMatchResult_goalDifference_invariant (l : List LeaderboardEntry)
    (home away : String) (hs as : Int)
    (hl : ∀ e ∈ l, e.goalDifference = e.goalsFor - e.goalsAgainst) :
    ∀ e ∈ applyMatchResult l home away hs as,
      e.goalDifference = e.goalsFor - e.goalsAgainst :=
  applyMatchResult_preserves
    (fun name opt isHome hs2 as2 _ => createEntryFromMatch_gd name opt isHome hs2 as2)
    hl home away hs as

/-- C5 witness: the goal-difference invariant read off the winner's entry of
the concrete 3–1 example match applied to the empty table. -/
theorem applyMatchResult_goalDifference_invariant_witness :
    matchEntryA.goalDifference = matchEntryA.goalsFor - matchEntryA.goalsAgainst :=
  applyMatchResult_goalDifference_invariant [] "A" "B" 3 1 (by simp) matchEntryA (by decide)

/-- C6: if every entry of the table satisfies `won + drawn + lost = played`,
then after applying a match result through the
`createEntryFromMatch`/`addOrUpdateTeam` pipeline every entry of the
resulting table still satisfies it (each application increments `played` by
one and exactly one of `won`, `drawn`, `lost` by one). -/
theorem applyMatchResult_played_invariant (l : List LeaderboardEntry)
    (home away : String) (hs as : Int)
    (hl : ∀ e ∈ l, e.won + e.drawn + e.lost = e.played) :
    ∀ e ∈ applyMatchResult l home away hs as, e.won + e.drawn + e.lost = e.played :=
  applyMatchResult_preserves
    (fun name opt isHome hs2 as2 h => createEntryFromMatch_wdl name opt isHome hs2 as2 h)
    hl home away hs as

/-- C6 witness: the played-count invariant read off the loser's entry of the
concrete 3–1 example match applied to the empty table. -/
theorem applyMatchResult_played_invariant_witness :
    matchEntryB.won + matchEntryB.drawn + matchEntryB.lost = matchEntryB.played :=
  applyMatchResult_played_invariant [] "A" "B" 3 1 (by simp) matchEntryB (by decide)

/-- C7: the points invariant `points = 3*won + drawn` is preserved by
`createEntryFromMatch` from any entry satisfying it, holds for the fresh
zeroed entry it creates, and consequently holds for every entry of the table
obtained by applying any sequence of match results starting from the empty
table. -/
theorem points_invariant :
    (∀ (name : String) (e : LeaderboardEntry) (isHome : Bool) (hs as : Int),
      e.points = 3 * e.won + e.drawn →
      (createEntryFromMatch name (some e) isHome hs as).points =
        3 * (createEntryFromMatch name (some e) isHome hs as).won +
          (createEntryFromMatch name (some e) isHome hs as).drawn) ∧
    (∀ (name : String) (isHome : Bool) (hs as : Int),
      (createEntryFromMatch name none isHome hs as).points =
        3 * (createEntryFromMatch name none isHome hs as).won +
          (createEntryFromMatch name none isHome hs as).drawn) ∧
    (∀ ms : List (String × String × Int × Int),
      ∀ e ∈ ms.foldl
        (fun table m => applyMatchResult table m.1 m.2.1 m.2.2.1 m.2.2.2) [],
        e.points = 3 * e.won + e.drawn) := by
  refine ⟨?_, ?_, ?_⟩
  · intro name e isHome hs as h
    exact createEntryFromMatch_points name (some e) isHome hs as
      fun e2 he2 => (Option.some.inj he2) ▸ h
  · intro name isHome hs as
    exact createEntryFromMatch_points name none isHome hs as
      fun e2 he2 => Option.noConfusion he2
  · intro ms
    suffices h : ∀ t : List LeaderboardEntry, (∀ e ∈ t, e.points = 3 * e.won + e.drawn) →
        ∀ e ∈ ms.foldl
          (fun table m => applyMatchResult table m.1 m.2.1 m.2.2.1 m.2.2.2) t,
          e.points = 3 * e.won + e.drawn by
      exact h [] (by simp)
    induction ms with
    | nil => intro t ht; simpa using ht
    | cons m rest ih =>
      intro t ht
      rw [List.foldl_cons]
      exact ih _ (applyMatchResult_preserves
        (fun name opt isHome hs2 as2 hbase =>
          createEntryFromMatch_points name opt isHome hs2 as2 hbase)
        ht m.1 m.2.1 m.2.2.1 m.2.2.2)

/-- C7 witness: the points invariant propagated through one concrete update
of the winner's entry of the worked example. -/
theorem points_invariant_witness :
    (createEntryFromMatch "A" (some matchEntryA) true 2 2).points =
      3 * (createEntryFromMatch "A" (some matchEntryA) true 2 2).won +
        (createEntryFromMatch "A" (some matchEntryA) true 2 2).drawn :=
  points_invariant.1 "A" matchEntryA true 2 2 (by decide)

/-- C8: on a table with case-insensitively distinct team names, `removeTeam`
returns `true` exactly when some entry matches the name case-insensitively
and in that case removes exactly that single entry, and otherwise returns
`false` with the table unchanged; in both cases every other entry is kept
with identical statistics and in its original order — the result is exactly
the pair (a match exists, the entries whose names do not match). -/
theorem removeTeam_spec : ∀ (l : List LeaderboardEntry) (name : String), ciDistinct l →
    removeTeam l name =
      (l.any fun x => nameMatches x.teamName name,
       l.filter fun x => !(nameMatches x.teamName name))
  | [], _, _ => rfl
  | a :: t, name, hd => by
    rw [ciDistinct, List.pairwise_cons] at hd
    simp only [removeTeam, List.findIdx_cons]
    cases ha : nameMatches a.teamName name with
    | true =>
      have hfilter : t.filter (fun x => !(nameMatches x.teamName name)) = t := by
        rw [List.filter_eq_self]
        intro y hy
        cases hy2 : nameMatches y.teamName name with
        | false => simp
        | true =>
          have hay : nameMatches a.teamName y.teamName = true :=
            nameMatches_trans ha (by rw [nameMatches_symm]; exact hy2)
          rw [hd.1 y hy] at hay
          exact absurd hay (by simp)
      simp [ha, hfilter]
    | false =>
      have iht := removeTeam_spec t name hd.2
      simp only [removeTeam] at iht
      simp only [cond_false]
      by_cases ht : (t.findIdx fun x => nameMatches x.teamName name) < t.length
      · rw [if_pos ht] at iht
        injection iht with ih1 ih2
        have h1 : (t.findIdx fun x => nameMatches x.teamName name) + 1 < (a :: t).length := by
          simp only [List.length_cons]; omega
        rw [if_pos h1, List.eraseIdx_cons_succ]
        rw [List.any_cons, List.filter_cons]
        simp [ha, ← ih1, ← ih2]
      · rw [if_neg ht] at iht
        injection iht with ih1 ih2
        have h1 : ¬ ((t.findIdx fun x => nameMatches x.teamName name) + 1 < (a :: t).length) := by
          simp only [List.length_cons]; omega
        rw [if_neg h1]
        rw [List.any_cons, List.filter_cons]
        simp [ha, ← ih1, ← ih2]

/-- C8 witness: removing a name absent from the concrete two-entry table
returns false and the unchanged entries. -/
theorem removeTeam_spec_witness :
    removeTeam [alphaEntry, zetaEntry] "NoSuchTeam" =
      ([alphaEntry, zetaEntry].any fun x => nameMatches x.teamName "NoSuchTeam",
       [alphaEntry, zetaEntry].filter fun x => !(nameMatches x.teamName "NoSuchTeam")) :=
  removeTeam_spec [alphaEntry, zetaEntry] "NoSuchTeam" (by decide)

/-- C10: on a table with case-insensitively distinct team names,
`addOrUpdateTeam entry` keeps the names case-insensitively distinct, leaves
exactly one entry matching `entry.teamName` case-insensitively — the
supplied entry itself — and has the old length when a match existed, the old
length plus one otherwise. -/
theorem addOrUpdateTeam_upsert_spec (l : List LeaderboardEntry) (e : LeaderboardEntry)
    (hd : ciDistinct l) :
    ciDistinct (addOrUpdateTeam l e) ∧
    (addOrUpdateTeam l e).filter (fun x => nameMatches x.teamName e.teamName) = [e] ∧
    (addOrUpdateTeam l e).length =
      (if ∃ y ∈ l, nameMatches y.teamName e.teamName = true then l.length
       else l.length + 1) :=
  ⟨ciDistinct_addOrUpdateTeam hd, filter_addOrUpdateTeam hd, length_addOrUpdateTeam l e⟩

/-- C10 witness: upserting the new entry A into the concrete two-entry table
appends it, keeping names distinct. -/
theorem addOrUpdateTeam_upsert_spec_witness :
    ciDistinct (addOrUpdateTeam [alphaEntry, zetaEntry] matchEntryA) ∧
    (addOrUpdateTeam [alphaEntry, zetaEntry] matchEntryA).filter
      (fun x => nameMatches x.teamName matchEntryA.teamName) = [matchEntryA] ∧
    (addOrUpdateTeam [alphaEntry, zetaEntry] matchEntryA).length =
      (if ∃ y ∈ [alphaEntry, zetaEntry], nameMatches y.teamName matchEntryA.teamName = true
       then [alphaEntry, zetaEntry].length else [alphaEntry, zetaEntry].length + 1) :=
  addOrUpdateTeam_upsert_spec [alphaEntry, zetaEntry] matchEntryA (by decide)

/-- C1: applying a completed match through the
`createEntryFromMatch`/`addOrUpdateTeam` pipeline updates each participating
team's entry exactly as specified — `played` increases by 1, `goalsFor` by
the team's own score, `goalsAgainst` by the opponent's score, the strictly
greater scorer gets `won`+1 and `points`+3, equal scores give both `drawn`+1
and `points`+1, the lesser scorer gets `lost`+1 and no points change; on a
table with case-insensitively distinct names those updated entries are
exactly what the resulting table holds for the two teams; and from the empty
table a 3–1 match produces the winner and loser entries of the worked
example. -/
theorem applyMatchResult_updates_each_team :
    (∀ (name : String) (e : LeaderboardEntry) (isHome : Bool) (hs as : Int),
      (createEntryFromMatch name (some e) isHome hs as).played = e.played + 1 ∧
      (createEntryFromMatch name (some e) isHome hs as).goalsFor =
        e.goalsFor + (if isHome then hs else as) ∧
      (createEntryFromMatch name (some e) isHome hs as).goalsAgainst =
        e.goalsAgainst + (if isHome then as else hs) ∧
      (createEntryFromMatch name (some e) isHome hs as).won =
        e.won + (if (if isHome then as else hs) < (if isHome then hs else as) then 1 else 0) ∧
      (createEntryFromMatch name (some e) isHome hs as).drawn =
        e.drawn + (if (if isHome then hs else as) = (if isHome then as else hs) then 1 else 0) ∧
      (createEntryFromMatch name (some e) isHome hs as).lost =
        e.lost + (if (if isHome then hs else as) < (if isHome then as else hs) then 1 else 0) ∧
      (createEntryFromMatch name (some e) isHome hs as).points =
        e.points + (if (if isHome then as else hs) < (if isHome then hs else as) then 3
          else if (if isHome then hs else as) = (if isHome then as else hs) then 1 else 0)) ∧
    (∀ (l : List LeaderboardEntry) (home away : String) (hs as : Int),
      ciDistinct l → nameMatches home away = false →
      getTeamStanding (applyMatchResult l home away hs as) home =
        some (createEntryFromMatch home (getTeamStanding l home) true hs as) ∧
      getTeamStanding (applyMatchResult l home away hs as) away =
        some (createEntryFromMatch away (getTeamStanding l away) false hs as)) ∧
    applyMatchResult [] "A" "B" 3 1 = [matchEntryA, matchEntryB] := by
  refine ⟨?_, ?_, by decide⟩
  · intro name e isHome hs as
    rw [createEntryFromMatch_some_eq]
    exact ⟨rfl, rfl, rfl, rfl, rfl, rfl, rfl⟩
  · intro l home away hs as hd hne
    have hhe := createEntryFromMatch_matches l home true hs as
    have hd2 : ciDistinct (addOrUpdateTeam l
        (createEntryFromMatch home (getTeamStanding l home) true hs as)) :=
      ciDistinct_addOrUpdateTeam hd
    have hne_he_away : nameMatches
        (createEntryFromMatch home (getTeamStanding l home) true hs as).teamName
        away = false := by
      cases hm : nameMatches
          (createEntryFromMatch home (getTeamStanding l home) true hs as).teamName away with
      | false => rfl
      | true =>
        have hta : nameMatches home away = true :=
          nameMatches_trans (by rw [nameMatches_symm]; exact hhe) hm
        rw [hne] at hta
        exact absurd hta (by simp)
    have hstep : getTeamStanding (addOrUpdateTeam l
          (createEntryFromMatch home (getTeamStanding l home) true hs as)) away =
        getTeamStanding l away :=
      getTeamStanding_addOrUpdateTeam_other hd hne_he_away
    have hae := createEntryFromMatch_matches (addOrUpdateTeam l
        (createEntryFromMatch home (getTeamStanding l home) true hs as)) away false hs as
    have hne_ae_home : nameMatches
        (createEntryFromMatch away (getTeamStanding (addOrUpdateTeam l
          (createEntryFromMatch home (getTeamStanding l home) true hs as)) away)
          false hs as).teamName home = false := by
      cases hm : nameMatches
          (createEntryFromMatch away (getTeamStanding (addOrUpdateTeam l
            (createEntryFromMatch home (getTeamStanding l home) true hs as)) away)
            false hs as).teamName home with
      | false => rfl
      | true =>
        have hta : nameMatches away home = true :=
          nameMatches_trans (by rw [nameMatches_symm]; exact hae) hm
        rw [nameMatches_symm away home, hne] at hta
        exact absurd hta (by simp)
    constructor
    · simp only [applyMatchResult]
      rw [getTeamStanding_addOrUpdateTeam_other hd2 hne_ae_home]
      exact getTeamStanding_addOrUpdateTeam_self hd hhe
    · simp only [applyMatchResult]
      rw [getTeamStanding_addOrUpdateTeam_self hd2 hae, hstep]

/-- C1 witness: the table-update part of the claim applied to a concrete
one-entry table and the 3–1 match. -/
theorem applyMatchResult_updates_each_team_witness :
    getTeamStanding (applyMatchResult [alphaEntry] "A" "B" 3 1) "A" =
      some (createEntryFromMatch "A" (getTeamStanding [alphaEntry] "A") true 3 1) :=
  (applyMatchResult_updates_each_team.2.1 [alphaEntry] "A" "B" 3 1
    (by decide) (by decide)).1

end Leaderboard
